import Mathlib

/-!
# rtl_jack: the data path between the capture callback and the JACK process callback

A shallow embedding of `src/rtl_jack.c`:

* `rtlsdr_callback` (the capture producer with its in-place decimation loop),
* `jack_process` (the render consumer with its fill-level gate),
* the block-size check and the `-n` option of `main`.

Pointers into a buffer are offsets (`Nat`) from the start of that buffer, and a
buffer is a function from offsets to byte values: the C code performs no bounds
check, so the model performs none either and records every offset it touches.
-/

namespace RtlJack

/-! ## Constants (`#define`s) -/

def RB_SIZE : Nat := 524288
def DEFAULT_BUF_LENGTH : Nat := 16 * 16384
def MINIMAL_BUF_LENGTH : Nat := 512
def MAXIMAL_BUF_LENGTH : Nat := 256 * 16384

/-! ## Machine integers -/

/-- Reduction of an integer to `uint32_t`. -/
def toUInt32 (x : Int) : Int := x % 2 ^ 32

/-- Reduction of an integer to a 32-bit two's-complement `int`. Conversions to `int`
and `int` products are reduced with it (a product that leaves the `int` range is
undefined in C; the model gives it the wrapped value). -/
def toInt32 (x : Int) : Int :=
  if x % 2 ^ 32 < 2 ^ 31 then x % 2 ^ 32 else x % 2 ^ 32 - 2 ^ 32

/-! ## The ring buffer between the two callbacks -/

/-- Modelled from the spec: the JACK ring buffer library (`jack/ringbuffer.h`) is not
part of the source. Following §3 and §4.2 it is a byte FIFO of fixed capacity; `data`
holds the unread bytes, oldest first. The program creates exactly one, of capacity
`RB_SIZE`. -/
structure RingBuffer where
  data : List Nat
  deriving DecidableEq, Repr

/-- Modelled from the spec: `available_to_read()`, the number of unread bytes. -/
def jack_ringbuffer_read_space (rb : RingBuffer) : Nat := rb.data.length

/-- Modelled from the spec: `available_to_write()`; read space plus write space is the
capacity. -/
def jack_ringbuffer_write_space (rb : RingBuffer) : Nat := RB_SIZE - rb.data.length

/-- Modelled from the spec: `write(bytes) -> written_count`; writes at most the available
space, never blocks. -/
def jack_ringbuffer_write (rb : RingBuffer) (src : List Nat) : RingBuffer × Nat :=
  let n := min src.length (jack_ringbuffer_write_space rb)
  ({ data := rb.data ++ src.take n }, n)

/-- Modelled from the spec: `read(dest, want) -> read_count`; copies at most
`min(want, available_to_read())` of the oldest bytes to the start of `dest` and
advances the read cursor by that amount. -/
def jack_ringbuffer_read (rb : RingBuffer) (dest : Nat → Nat) (cnt : Nat) :
    RingBuffer × (Nat → Nat) × Nat :=
  let n := min cnt (jack_ringbuffer_read_space rb)
  ({ data := rb.data.drop n },
   (fun i => if i < n then rb.data.getD i 0 else dest i),
   n)

/-! ## Global state -/

/-- The globals the two callbacks share: `do_exit`, `bytes_to_read`, `filling`, `rtldata`. -/
structure Globals where
  do_exit : Bool
  bytes_to_read : Nat
  filling : Bool
  rtldata : RingBuffer
  deriving DecidableEq, Repr

/-- The initial values of the globals: `do_exit = 0`, `bytes_to_read = 0`, `filling = 1`,
and the ring buffer as `start_jack` creates it (empty). -/
def init_globals : Globals :=
  { do_exit := false, bytes_to_read := 0, filling := true, rtldata := { data := [] } }

/-! ## The chunk buffer and its accesses -/

/-- One access to the chunk buffer, at offset `off` from `buf`. -/
inductive Access where
  | rd (off : Nat)
  | wr (off : Nat)
  deriving DecidableEq, Repr

/-- The chunk memory together with the accesses made so far, oldest first. -/
structure Chunk where
  mem : Nat → Nat
  log : List Access

/-- The assignment `*d = *s`: one read at offset `s`, then one write at offset `d`. -/
def Chunk.copy (c : Chunk) (d s : Nat) : Chunk :=
  { mem := fun i => if i = d then c.mem s else c.mem i,
    log := c.log ++ [Access.rd s, Access.wr d] }

/-- The loop `for (di=dlen; di > 0; di--) { *ddest = *dsrc; ddest++; *ddest = *dsrc;
ddest++; dsrc+=6; }` with `di` iterations left. -/
def decimate_loop : Nat → Nat → Nat → Chunk → Chunk
  | 0, _, _, c => c
  | di + 1, ddest, dsrc, c =>
    let c := c.copy ddest dsrc
    let ddest := ddest + 1
    let c := c.copy ddest dsrc
    let ddest := ddest + 1
    let dsrc := dsrc + 6
    decimate_loop di ddest dsrc c

/-- Lines 195-206 of `rtlsdr_callback`: `ddest = buf + 2; dsrc = buf; *ddest = *dsrc;
dsrc += 6;` followed by the loop. -/
def decimate (buf : Nat → Nat) (dlen : Nat) : Chunk :=
  let ddest := 0 + 2
  let dsrc := 0
  let c := Chunk.copy { mem := buf, log := [] } ddest dsrc
  let dsrc := dsrc + 6
  decimate_loop dlen ddest dsrc c

/-- What one call of `rtlsdr_callback` leaves behind. -/
structure CallbackResult where
  /-- the globals after the call -/
  g : Globals
  /-- the chunk memory after the call -/
  buf : Nat → Nat
  /-- the offsets of the chunk the call read and wrote, oldest first -/
  log : List Access
  /-- the bytes passed to `jack_ringbuffer_write` (`size` bytes starting at `buf`), or
  `none` when the call does not reach it -/
  handed : Option (List Nat)
  /-- whether `rtlsdr_cancel_async` was called -/
  cancelled : Bool

/-- The function `rtlsdr_callback(buf, len, ctx)`. `len` and `bytes_to_read` are
`uint32_t`, so `dlen = len / 6` fits `int`, and `ba` is at most `RB_SIZE`: no conversion
of the function changes a value, and the integers are modelled by `Nat`. -/
def rtlsdr_callback (g : Globals) (buf : Nat → Nat) (len : Nat) : CallbackResult :=
  if g.do_exit then
    { g := g, buf := buf, log := [], handed := none, cancelled := false }
  else
    let limit := decide (g.bytes_to_read > 0) && decide (g.bytes_to_read < len)
    let len := if limit then g.bytes_to_read else len
    let g := if limit then { g with do_exit := true } else g
    let dlen := len / 6
    let ba := jack_ringbuffer_write_space g.rtldata
    if ba ≥ dlen then
      let size := if ba > dlen then dlen else ba
      let c := decimate buf dlen
      let bytes := (List.range size).map c.mem
      { g := { g with rtldata := (jack_ringbuffer_write g.rtldata bytes).1 },
        buf := c.mem, log := c.log, handed := some bytes, cancelled := limit }
    else
      { g := g, buf := buf, log := [], handed := none, cancelled := limit }

/-- The capture thread: the driver delivers the chunks one after the other, each to
`rtlsdr_callback`; the globals after the whole sequence. -/
def deliver (g : Globals) : List ((Nat → Nat) × Nat) → Globals
  | [] => g
  | (buf, len) :: rest => deliver (rtlsdr_callback g buf len).g rest

/-! ## The decimation run out of place, and the overlap predicates -/

/-- The copy loop of `decimate_loop` run out of place: every read `*dsrc` goes to `src`,
an untouched copy of the input chunk, every write `*ddest` to `dst`. -/
def decimate_loop_out_of_place (src : Nat → Nat) : Nat → Nat → Nat → (Nat → Nat) → (Nat → Nat)
  | 0, _, _, dst => dst
  | di + 1, ddest, dsrc, dst =>
    let dst := fun i => if i = ddest then src dsrc else dst i
    let ddest := ddest + 1
    let dst := fun i => if i = ddest then src dsrc else dst i
    let ddest := ddest + 1
    let dsrc := dsrc + 6
    decimate_loop_out_of_place src di ddest dsrc dst

/-- The statements of `decimate` run out of place: the destination starts as the chunk,
the source is an untouched copy of it. -/
def decimate_out_of_place (buf : Nat → Nat) (dlen : Nat) : Nat → Nat :=
  let ddest := 0 + 2
  let dsrc := 0
  let dst := fun i => if i = ddest then buf dsrc else buf i
  let dsrc := dsrc + 6
  decimate_loop_out_of_place buf dlen ddest dsrc dst

/-- The bytes `rtlsdr_callback` would pass to `jack_ringbuffer_write` if its copy loop
ran out of place (`decimate_out_of_place` instead of `decimate`). -/
def rtlsdr_callback_out_of_place (g : Globals) (buf : Nat → Nat) (len : Nat) :
    Option (List Nat) :=
  if g.do_exit then
    none
  else
    let limit := decide (g.bytes_to_read > 0) && decide (g.bytes_to_read < len)
    let len := if limit then g.bytes_to_read else len
    let dlen := len / 6
    let ba := jack_ringbuffer_write_space g.rtldata
    if ba ≥ dlen then
      let size := if ba > dlen then dlen else ba
      some ((List.range size).map (decimate_out_of_place buf dlen))
    else
      none

/-- The accesses of `di` iterations of the copy loop started at `ddest`, `dsrc`. -/
def loopLog : Nat → Nat → Nat → List Access
  | 0, _, _ => []
  | di + 1, ddest, dsrc =>
    [Access.rd dsrc, Access.wr ddest, Access.rd dsrc, Access.wr (ddest + 1)]
      ++ loopLog di (ddest + 2) (dsrc + 6)

/-- Every copy `*d = *s` of the log (a read followed by a write) has its write position
strictly behind its read position. -/
def writes_behind_reads : List Access → Bool
  | [] => true
  | Access.rd s :: Access.wr d :: rest => decide (d < s) && writes_behind_reads rest
  | _ => false

/-- No read of the log is at an offset written earlier (`written` holds the offsets
written before the log starts). -/
def reads_untouched : List Nat → List Access → Bool
  | _, [] => true
  | written, Access.rd i :: rest => decide (i ∉ written) && reads_untouched written rest
  | written, Access.wr i :: rest => reads_untouched (i :: written) rest

/-! ## The render consumer -/

/-- The loop `for(count = 0; count < get; count++) { *outi++ = *input++; *outq++ = *input++; }`
with `n` iterations left and `input` the offset of the read pointer in the scratch
buffer; the two lists are the values stored through `outi` and `outq` so far. -/
def copy_frames (scratch : Nat → Nat) : Nat → Nat → List Nat × List Nat → List Nat × List Nat
  | 0, _, out => out
  | n + 1, input, (outi, outq) =>
    copy_frames scratch n (input + 2) (outi ++ [scratch input], outq ++ [scratch (input + 1)])

/-- The loop `for(; count < nframes; count++) { *outi++ = 0; *outq++ = 0; }` with `n`
iterations left. -/
def zero_frames : Nat → List Nat × List Nat → List Nat × List Nat
  | 0, out => out
  | n + 1, (outi, outq) => zero_frames n (outi ++ [0], outq ++ [0])

/-- What one call of `jack_process` leaves behind. A sample is the exact value of the
float stored (a byte widened to float is exact). -/
structure ProcessResult where
  /-- the return value -/
  ret : Int
  /-- the globals after the call -/
  g : Globals
  /-- the scratch buffer `p->buffer` after the call -/
  scratch : Nat → Nat
  /-- the value of `get`, `none` when the call returns before computing it -/
  get : Option Int
  /-- the values stored through `outi`, frame 0 first -/
  outi : List Nat
  /-- the values stored through `outq`, frame 0 first -/
  outq : List Nat

/-- Lines 292-303 of `jack_process`, the fill-level gate: `if (filling) { if (available
>= 8*want) filling = 0; get = 0; } else if (available == 0) { get = 0; filling = 1; }
else { get = (want > available) ? available : want; }`. The result is `get` and the new
value of `filling`. -/
def fill_gate (filling : Bool) (want available : Int) : Int × Bool :=
  if filling then
    (0, if available ≥ toInt32 (8 * want) then false else filling)
  else if available = 0 then
    (0, true)
  else
    ((if want > available then available else want), filling)

/-- The function `jack_process(nframes, arg)`; `scratch` is `p->buffer`. `nframes` is
`uint32_t`: `nframes * 2` is an unsigned product converted to `int`, `available` is a
`size_t` converted to `int`, `get` is converted to `size_t` for `jack_ringbuffer_read` and
to `uint32_t` for the comparison `count < get`. -/
def jack_process (g : Globals) (scratch : Nat → Nat) (nframes : Nat) : ProcessResult :=
  if g.do_exit then
    { ret := 1, g := g, scratch := scratch, get := none, outi := [], outq := [] }
  else
    let want : Int := toInt32 (toUInt32 ((nframes : Int) * 2))
    let available : Int := toInt32 (jack_ringbuffer_read_space g.rtldata : Nat)
    let gate := fill_gate g.filling want available
    let get := gate.1
    let drained := jack_ringbuffer_read g.rtldata scratch (get % 2 ^ 64).toNat
    let input := drained.2.1
    let count := (toUInt32 get).toNat
    let out := copy_frames input count 0 ([], [])
    let out := zero_frames (nframes - count) out
    { ret := 0, g := { g with filling := gate.2, rtldata := drained.1 }, scratch := input,
      get := some get, outi := out.1, outq := out.2 }

/-! ## `main` -/

/-- Lines 507-516 of `main`: the check of `out_block_size`; the result is what
`params.out_block_size` receives. -/
def check_out_block_size (out_block_size : Nat) : Nat :=
  if out_block_size < MINIMAL_BUF_LENGTH ∨ out_block_size > MAXIMAL_BUF_LENGTH then
    DEFAULT_BUF_LENGTH
  else
    out_block_size

/-- The block size `main` hands to the capture thread: `b` is the value of the `-b`
option after its conversion to `uint32_t`, `none` when the option is absent. -/
def main_out_block_size (b : Option Nat) : Nat :=
  check_out_block_size (b.getD DEFAULT_BUF_LENGTH)

/-- The option `-n`: `bytes_to_read = (uint32_t)atof(optarg) * 2`. -/
def main_bytes_to_read (n : Nat) : Nat := (n * 2) % 2 ^ 32

/-! ## States used as concrete inputs -/

/-- A state in which the ring buffer holds `RB_SIZE - 3` unread bytes, so that 3 bytes of
write space are left; flag clear, no byte limit. -/
def nearly_full : Globals :=
  { do_exit := false, bytes_to_read := 0, filling := false,
    rtldata := { data := List.replicate (RB_SIZE - 3) 0 } }

/-- Eight chunks of the default size `DEFAULT_BUF_LENGTH`, all bytes zero. -/
def eight_default_chunks : List ((Nat → Nat) × Nat) :=
  List.replicate 8 ((fun _ => 0), DEFAULT_BUF_LENGTH)

/-- The state after `-n 1000000`: the byte limit `bytes_to_read` is 2000000; flag clear,
ring buffer empty. -/
def limited : Globals :=
  { do_exit := false, bytes_to_read := main_bytes_to_read 1000000, filling := true,
    rtldata := { data := [] } }

/-- A state in `Filling` (`filling = 1`) with `n` unread bytes in the ring buffer. -/
def prefilled (n : Nat) : Globals :=
  { do_exit := false, bytes_to_read := 0, filling := true,
    rtldata := { data := List.replicate n 0 } }

/-- A state in `Streaming` (`filling = 0`) whose ring buffer holds the unread bytes `bytes`. -/
def streaming (bytes : List Nat) : Globals :=
  { do_exit := false, bytes_to_read := 0, filling := false, rtldata := { data := bytes } }

/-- The state `Streaming` with 2048 unread bytes, as after the gate has opened for
`nframes = 128`. -/
def just_opened : Globals := streaming (List.replicate 2048 0)

/-- A first call of `jack_process` in `Streaming` with 4 unread bytes, `nframes = 4` and
the scratch buffer as `start_jack` leaves it (all zero). -/
def first_call : ProcessResult :=
  jack_process (streaming [1, 2, 3, 4]) (fun _ => 0) 4

/-- The next call of `jack_process`, `nframes = 4`, after the producer has written the
two bytes 5, 7 to the ring buffer; the scratch buffer is the one `first_call` left. -/
def second_call : ProcessResult :=
  jack_process
    { first_call.g with rtldata := (jack_ringbuffer_write first_call.g.rtldata [5, 7]).1 }
    first_call.scratch 4

/-! ## Supporting lemmas -/

theorem toInt32_of_range (x : Int) (h0 : 0 ≤ x) (h1 : x < 2 ^ 31) : toInt32 x = x := by
  unfold toInt32
  have e : x % 2 ^ 32 = x := Int.emod_eq_of_lt h0 (by omega)
  rw [e]
  have h2 : x < (2 : Int) ^ 31 := h1
  rw [if_pos h2]

theorem toUInt32_of_range (x : Int) (h0 : 0 ≤ x) (h1 : x < 2 ^ 32) : toUInt32 x = x := by
  unfold toUInt32
  exact Int.emod_eq_of_lt h0 h1

theorem decimate_loop_log (di : Nat) : ∀ (d s : Nat) (c : Chunk),
    (decimate_loop di d s c).log = c.log ++ loopLog di d s := by
  induction di with
  | zero => intro d s c; simp [decimate_loop, loopLog]
  | succ n ih =>
    intro d s c
    simp [decimate_loop, loopLog, ih, Chunk.copy, List.append_assoc]

theorem decimate_log (buf : Nat → Nat) (dlen : Nat) :
    (decimate buf dlen).log = [Access.rd 0, Access.wr 2] ++ loopLog dlen 2 6 := by
  simp [decimate, decimate_loop_log, Chunk.copy]

theorem loopLog_writes_behind (di : Nat) : ∀ (d s : Nat), d + 1 < s →
    writes_behind_reads (loopLog di d s) = true := by
  induction di with
  | zero => intro d s _; simp [loopLog, writes_behind_reads]
  | succ n ih =>
    intro d s h
    have h1 : d < s := by omega
    have h2 : d + 1 < s := h
    simp [loopLog, writes_behind_reads, h1, h2, ih (d + 2) (s + 6) (by omega)]

theorem loopLog_reads_untouched (di : Nat) : ∀ (d s : Nat) (w : List Nat), d + 1 < s →
    (∀ x ∈ w, x < s) → reads_untouched w (loopLog di d s) = true := by
  induction di with
  | zero => intro d s w _ _; simp [loopLog, reads_untouched]
  | succ n ih =>
    intro d s w h hw
    have hs : s ∉ w := fun hm => Nat.lt_irrefl s (hw s hm)
    have hsd : ¬ s = d := by omega
    have hsd1 : ¬ s = d + 1 := by omega
    have ih1 := ih (d + 2) (s + 6) ((d + 1) :: d :: w) (by omega) (by
      intro x hx
      simp only [List.mem_cons] at hx
      rcases hx with hx | hx | hx
      · omega
      · omega
      · have := hw x hx
        omega)
    simp [loopLog, reads_untouched, hs, hsd, ih1]

theorem decimate_loop_mem (src : Nat → Nat) (di : Nat) : ∀ (d s : Nat) (c : Chunk),
    d + 1 < s → (∀ j, s ≤ j → c.mem j = src j) →
    (decimate_loop di d s c).mem = decimate_loop_out_of_place src di d s c.mem := by
  induction di with
  | zero => intro d s c _ _; simp [decimate_loop, decimate_loop_out_of_place]
  | succ n ih =>
    intro d s c h hsrc
    have hsd : ¬ s = d := by omega
    have e :
        ((c.copy d s).copy (d + 1) s).mem
          = fun i => if i = d + 1 then src s else (if i = d then src s else c.mem i) := by
      funext i
      simp [Chunk.copy, hsd, hsrc s (Nat.le_refl s)]
    have step := ih (d + 1 + 1) (s + 6) ((c.copy d s).copy (d + 1) s) (by omega) (by
      intro j hj
      rw [e]
      have h1 : ¬ j = d + 1 := by omega
      have h2 : ¬ j = d := by omega
      simp [h1, h2, hsrc j (by omega)])
    simp only [decimate_loop, decimate_loop_out_of_place]
    rw [step, e]

theorem decimate_mem (buf : Nat → Nat) (dlen : Nat) :
    (decimate buf dlen).mem = decimate_out_of_place buf dlen := by
  unfold decimate decimate_out_of_place
  apply decimate_loop_mem
  · omega
  · intro j hj
    have h2 : ¬ j = 2 := by omega
    simp [Chunk.copy, h2]

theorem decimate_loop_out_of_place_apply (src : Nat → Nat) (di : Nat) :
    ∀ (d s : Nat) (dst : Nat → Nat) (i : Nat),
    decimate_loop_out_of_place src di d s dst i
      = if d ≤ i ∧ i < d + 2 * di then src (s + 6 * ((i - d) / 2)) else dst i := by
  induction di with
  | zero =>
    intro d s dst i
    have h : ¬ (d ≤ i ∧ i < d + 2 * 0) := by omega
    rw [if_neg h]
    rfl
  | succ n ih =>
    intro d s dst i
    simp only [decimate_loop_out_of_place]
    rw [ih]
    by_cases h1 : d + 1 + 1 ≤ i ∧ i < d + 1 + 1 + 2 * n
    · have h2 : d ≤ i ∧ i < d + 2 * (n + 1) := by omega
      rw [if_pos h1, if_pos h2]
      congr 1
      omega
    · rw [if_neg h1]
      by_cases h3 : i = d + 1
      · have h2 : d ≤ i ∧ i < d + 2 * (n + 1) := by omega
        rw [if_pos h3, if_pos h2]
        congr 1
        omega
      · rw [if_neg h3]
        by_cases h4 : i = d
        · have h2 : d ≤ i ∧ i < d + 2 * (n + 1) := by omega
          rw [if_pos h4, if_pos h2]
          congr 1
          omega
        · have h2 : ¬ (d ≤ i ∧ i < d + 2 * (n + 1)) := by omega
          rw [if_neg h4, if_neg h2]

theorem decimate_mem_apply (buf : Nat → Nat) (dlen i : Nat) :
    (decimate buf dlen).mem i
      = if 2 ≤ i ∧ i < 2 + 2 * dlen then buf (6 * (i / 2))
        else if i = 2 then buf 0 else buf i := by
  rw [decimate_mem]
  unfold decimate_out_of_place
  rw [decimate_loop_out_of_place_apply]
  by_cases h : 2 ≤ i ∧ i < 2 + 2 * dlen
  · have h' : 0 + 2 ≤ i ∧ i < 0 + 2 + 2 * dlen := by omega
    rw [if_pos h, if_pos h']
    congr 1
    omega
  · have h' : ¬ (0 + 2 ≤ i ∧ i < 0 + 2 + 2 * dlen) := by omega
    rw [if_neg h, if_neg h']

theorem loopLog_reads_end (n : Nat) : ∀ (d s : Nat),
    Access.rd (s + 6 * n) ∈ loopLog (n + 1) d s := by
  induction n with
  | zero => intro d s; simp [loopLog]
  | succ m ih =>
    intro d s
    have h := ih (d + 2) (s + 6)
    have e : s + 6 + 6 * m = s + 6 * (m + 1) := by omega
    rw [e] at h
    rw [loopLog]
    exact List.mem_append_right _ h

theorem rtlsdr_callback_enough_space (g : Globals) (buf : Nat → Nat) (len : Nat)
    (hexit : g.do_exit = false) (hlim : g.bytes_to_read = 0)
    (hspace : len / 6 ≤ jack_ringbuffer_write_space g.rtldata) :
    rtlsdr_callback g buf len =
      { g := { g with rtldata :=
                 (jack_ringbuffer_write g.rtldata
                    ((List.range (len / 6)).map (decimate buf (len / 6)).mem)).1 },
        buf := (decimate buf (len / 6)).mem,
        log := (decimate buf (len / 6)).log,
        handed := some ((List.range (len / 6)).map (decimate buf (len / 6)).mem),
        cancelled := false } := by
  unfold rtlsdr_callback
  simp only [hexit, hlim]
  have hsize : (if jack_ringbuffer_write_space g.rtldata > len / 6 then len / 6
      else jack_ringbuffer_write_space g.rtldata) = len / 6 := by
    split <;> omega
  simp [hspace, hsize, hexit, hlim]

theorem decimate_log_writes_behind (buf : Nat → Nat) (dlen : Nat) :
    writes_behind_reads ((decimate buf dlen).log.drop 2) = true := by
  rw [decimate_log]
  exact loopLog_writes_behind dlen 2 6 (by omega)

theorem decimate_log_reads_untouched (buf : Nat → Nat) (dlen : Nat) :
    reads_untouched [] (decimate buf dlen).log = true := by
  rw [decimate_log]
  have h := loopLog_reads_untouched dlen 2 6 [2] (by omega) (by
    intro x hx
    simp only [List.mem_singleton] at hx
    omega)
  simpa [reads_untouched] using h

theorem rtlsdr_callback_no_space (g : Globals) (buf : Nat → Nat) (len : Nat)
    (hexit : g.do_exit = false)
    (hspace : jack_ringbuffer_write_space g.rtldata <
      (if 0 < g.bytes_to_read ∧ g.bytes_to_read < len then g.bytes_to_read else len) / 6) :
    (rtlsdr_callback g buf len).handed = none ∧
    (rtlsdr_callback g buf len).g.rtldata = g.rtldata ∧
    (rtlsdr_callback g buf len).buf = buf ∧
    (rtlsdr_callback g buf len).log = [] := by
  unfold rtlsdr_callback
  by_cases hl : 0 < g.bytes_to_read ∧ g.bytes_to_read < len
  · rw [if_pos hl] at hspace
    have h : ¬ (g.bytes_to_read / 6 ≤ jack_ringbuffer_write_space g.rtldata) := by omega
    simp [hexit, hl, h]
  · rw [if_neg hl] at hspace
    have h : ¬ (len / 6 ≤ jack_ringbuffer_write_space g.rtldata) := by omega
    have hl' : (decide (g.bytes_to_read > 0) && decide (g.bytes_to_read < len)) = false := by
      simpa using hl
    simp [hexit, hl', h]

theorem jack_ringbuffer_write_space_of_length (rb : RingBuffer) (n : Nat)
    (h : rb.data.length = n) : jack_ringbuffer_write_space rb = RB_SIZE - n := by
  subst h
  rfl

theorem nearly_full_length : nearly_full.rtldata.data.length = RB_SIZE - 3 :=
  List.length_replicate _ _

theorem nearly_full_write_space : jack_ringbuffer_write_space nearly_full.rtldata = 3 :=
  (jack_ringbuffer_write_space_of_length _ _ nearly_full_length).trans (by decide)

theorem nearly_full_no_space :
    jack_ringbuffer_write_space nearly_full.rtldata <
      (if 0 < nearly_full.bytes_to_read ∧ nearly_full.bytes_to_read < 36
        then nearly_full.bytes_to_read else 36) / 6 := by
  rw [nearly_full_write_space]
  decide

/-! ## The capture producer: `rtlsdr_callback` -/

/-- C1 (amended): with the cancellation flag clear, no byte limit configured and enough
ring-buffer write space, `rtlsdr_callback` hands exactly `floor(len/6)` bytes (not
`2*floor(len/6)`) to the ring buffer, and the ring buffer takes them all. -/
theorem rtlsdr_callback_hands_len_div_6_bytes (g : Globals) (buf : Nat → Nat) (len : Nat)
    (hexit : g.do_exit = false) (hlim : g.bytes_to_read = 0)
    (hspace : len / 6 ≤ jack_ringbuffer_write_space g.rtldata) :
    ∃ bytes, (rtlsdr_callback g buf len).handed = some bytes ∧ bytes.length = len / 6 ∧
      (rtlsdr_callback g buf len).g.rtldata.data = g.rtldata.data ++ bytes := by
  rw [rtlsdr_callback_enough_space g buf len hexit hlim hspace]
  refine ⟨_, rfl, by simp, ?_⟩
  simp only [jack_ringbuffer_write]
  congr 1
  apply List.take_of_length_le
  simp only [List.length_map, List.length_range]
  exact Nat.le_min.mpr ⟨Nat.le_refl _, hspace⟩

/-- C1, witness: a chunk of 36 bytes delivered in the initial state. -/
theorem rtlsdr_callback_hands_len_div_6_bytes_witness :
    ∃ bytes, (rtlsdr_callback init_globals (fun _ => 0) 36).handed = some bytes ∧
      bytes.length = 36 / 6 ∧
      (rtlsdr_callback init_globals (fun _ => 0) 36).g.rtldata.data
        = init_globals.rtldata.data ++ bytes :=
  rtlsdr_callback_hands_len_div_6_bytes init_globals (fun _ => 0) 36 rfl rfl (by decide)

/-- C1, counterexample: for `len = 36`, flag clear, no limit and an empty ring buffer, the
callback hands 6 bytes to the ring buffer, not `2*floor(36/6) = 12`. -/
theorem rtlsdr_callback_36_hands_6_not_12 :
    init_globals.do_exit = false ∧ init_globals.bytes_to_read = 0 ∧
    36 / 6 ≤ jack_ringbuffer_write_space init_globals.rtldata ∧
    (rtlsdr_callback init_globals (fun _ => 0) 36).handed.map List.length = some 6 ∧
    ¬ ((rtlsdr_callback init_globals (fun _ => 0) 36).handed.map List.length
        = some (2 * (36 / 6))) := by
  decide

/-- C2 (what the code does): with the flag clear, no byte limit and enough write space,
the bytes `rtlsdr_callback` hands to the ring buffer are input bytes 0 and 1 followed, at
every output offset `i ≥ 2`, by the input byte at offset `6*(i/2)`. Output unit `k ≥ 1` is
the I byte of input unit `3*k` twice: the statement commented `copy Q` copies `*dsrc`, the
I byte, again, and `dsrc += 6` steps 3 complex units. It is not the I and Q byte of input
unit `6*k`. -/
theorem rtlsdr_callback_handed_bytes (g : Globals) (buf : Nat → Nat) (len : Nat)
    (hexit : g.do_exit = false) (hlim : g.bytes_to_read = 0)
    (hspace : len / 6 ≤ jack_ringbuffer_write_space g.rtldata) :
    (rtlsdr_callback g buf len).handed
      = some ((List.range (len / 6)).map
          (fun i => if i < 2 then buf i else buf (6 * (i / 2)))) := by
  rw [rtlsdr_callback_enough_space g buf len hexit hlim hspace]
  simp only [Option.some.injEq]
  apply List.map_congr_left
  intro i hi
  have hi' : i < len / 6 := List.mem_range.mp hi
  rw [decimate_mem_apply]
  by_cases h : i < 2
  · have h1 : ¬ (2 ≤ i ∧ i < 2 + 2 * (len / 6)) := by omega
    have h2 : ¬ i = 2 := by omega
    rw [if_neg h1, if_neg h2, if_pos h]
  · have h1 : 2 ≤ i ∧ i < 2 + 2 * (len / 6) := by omega
    rw [if_pos h1, if_neg h]

/-- C2, witness (the failing input): the chunk whose byte at offset `i` is `i`, `len = 36`,
delivered in the initial state. The callback hands `[0, 1, 6, 6, 12, 12]`: unit 1 is
`(6, 6)`, where the claim has the I and Q byte of input unit 6, the bytes `(12, 13)`. -/
theorem rtlsdr_callback_handed_bytes_witness :
    (rtlsdr_callback init_globals (fun i => i) 36).handed = some [0, 1, 6, 6, 12, 12] ∧
    ¬ (([0, 1, 6, 6, 12, 12] : List Nat)[2 * 1]? = some ((fun i => i) (2 * (6 * 1))) ∧
       ([0, 1, 6, 6, 12, 12] : List Nat)[2 * 1 + 1]? = some ((fun i => i) (2 * (6 * 1) + 1))) :=
  ⟨(rtlsdr_callback_handed_bytes init_globals (fun i => i) 36 rfl rfl (by decide)).trans
    (by decide), by decide⟩

/-- C5 (amended): when the decimated size `floor(len/6)` of a chunk (of its first
`bytes_to_read` bytes when the byte limit cuts it) exceeds the available write space,
`rtlsdr_callback` passes nothing to the ring buffer: the whole chunk is discarded, and
the ring buffer and the chunk are left as they were. -/
theorem rtlsdr_callback_no_space_drops_chunk (g : Globals) (buf : Nat → Nat) (len : Nat)
    (hexit : g.do_exit = false)
    (hspace : jack_ringbuffer_write_space g.rtldata <
      (if 0 < g.bytes_to_read ∧ g.bytes_to_read < len then g.bytes_to_read else len) / 6) :
    (rtlsdr_callback g buf len).handed = none ∧
    (rtlsdr_callback g buf len).g.rtldata = g.rtldata ∧
    (rtlsdr_callback g buf len).buf = buf ∧
    (rtlsdr_callback g buf len).log = [] :=
  rtlsdr_callback_no_space g buf len hexit hspace

/-- C5, witness: a chunk of 36 bytes (decimated size 6) when 3 bytes of write space are
left. -/
theorem rtlsdr_callback_no_space_drops_chunk_witness :
    (rtlsdr_callback nearly_full (fun i => i) 36).handed = none ∧
    (rtlsdr_callback nearly_full (fun i => i) 36).g.rtldata = nearly_full.rtldata ∧
    (rtlsdr_callback nearly_full (fun i => i) 36).buf = (fun i => i) ∧
    (rtlsdr_callback nearly_full (fun i => i) 36).log = [] :=
  rtlsdr_callback_no_space_drops_chunk nearly_full (fun i => i) 36 rfl nearly_full_no_space

/-- C5, counterexample: with 3 bytes of write space left and a chunk of decimated size
`36/6 = 6`, the callback passes no byte to the ring buffer, not the 3 that would fit. -/
theorem rtlsdr_callback_no_partial_write :
    nearly_full.do_exit = false ∧
    jack_ringbuffer_write_space nearly_full.rtldata = 3 ∧
    jack_ringbuffer_write_space nearly_full.rtldata < 36 / 6 ∧
    (rtlsdr_callback nearly_full (fun i => i) 36).handed = none ∧
    ¬ ((rtlsdr_callback nearly_full (fun i => i) 36).handed.map List.length
        = some (min (36 / 6) (jack_ringbuffer_write_space nearly_full.rtldata))) := by
  have hnone : (rtlsdr_callback nearly_full (fun i => i) 36).handed = none :=
    (rtlsdr_callback_no_space nearly_full (fun i => i) 36 rfl nearly_full_no_space).1
  refine ⟨rfl, nearly_full_write_space, ?_, hnone, ?_⟩
  · rw [nearly_full_write_space]
    decide
  · intro h
    rw [hnone] at h
    exact Option.noConfusion h

/-- C7 (the out-of-bounds read): with the flag clear, no byte limit and enough write
space, for every chunk length `len ≥ 6` that is a multiple of 6 the decimation step of
`rtlsdr_callback` reads the chunk at offset `len`, one past its last byte. -/
theorem rtlsdr_callback_reads_at_len (g : Globals) (buf : Nat → Nat) (len : Nat)
    (hexit : g.do_exit = false) (hlim : g.bytes_to_read = 0)
    (hspace : len / 6 ≤ jack_ringbuffer_write_space g.rtldata)
    (h6 : 6 ≤ len) (hmul : len % 6 = 0) :
    Access.rd len ∈ (rtlsdr_callback g buf len).log := by
  rw [rtlsdr_callback_enough_space g buf len hexit hlim hspace]
  simp only
  rw [decimate_log]
  obtain ⟨n, hn⟩ : ∃ n, len / 6 = n + 1 := ⟨len / 6 - 1, by omega⟩
  have h := loopLog_reads_end n 2 6
  have e : 6 + 6 * n = len := by omega
  rw [e, ← hn] at h
  exact List.mem_append_right _ h

/-- C7, witness (the failing input): a chunk of `len = 1536` bytes, as `-b 1536` gives;
the callback reads offset 1536. -/
theorem rtlsdr_callback_reads_at_len_witness :
    Access.rd 1536 ∈ (rtlsdr_callback init_globals (fun _ => 0) 1536).log ∧ ¬ (1536 < 1536) :=
  ⟨rtlsdr_callback_reads_at_len init_globals (fun _ => 0) 1536 rfl rfl (by decide)
    (by decide) (by decide), by decide⟩

/-- C10: the in-place decimation of `rtlsdr_callback` is overlap-safe. For every call, every
copy of the loop (the log past the two accesses of the seed copy) has its write position
strictly behind its read position, no read is at an offset written earlier in the call,
and the bytes handed to the ring buffer are those of the same statements run out of place
on an untouched copy of the chunk. -/
theorem rtlsdr_callback_decimation_overlap_safe (g : Globals) (buf : Nat → Nat) (len : Nat) :
    writes_behind_reads ((rtlsdr_callback g buf len).log.drop 2) = true ∧
    reads_untouched [] (rtlsdr_callback g buf len).log = true ∧
    (rtlsdr_callback g buf len).handed = rtlsdr_callback_out_of_place g buf len := by
  unfold rtlsdr_callback rtlsdr_callback_out_of_place
  by_cases he : g.do_exit = true
  · simp [he, writes_behind_reads, reads_untouched]
  · have he' : g.do_exit = false := by simpa using he
    by_cases hl : (decide (g.bytes_to_read > 0) && decide (g.bytes_to_read < len)) = true
    · by_cases hs : g.bytes_to_read / 6 ≤ jack_ringbuffer_write_space g.rtldata
      · simp only [he', hl, if_true]
        simp [hs, decimate_log_writes_behind, decimate_log_reads_untouched, decimate_mem]
      · simp only [he', hl, if_true]
        simp [hs, writes_behind_reads, reads_untouched]
    · have hl' : (decide (g.bytes_to_read > 0) && decide (g.bytes_to_read < len)) = false := by
        simpa using hl
      by_cases hs : len / 6 ≤ jack_ringbuffer_write_space g.rtldata
      · simp only [he', hl']
        simp [hs, decimate_log_writes_behind, decimate_log_reads_untouched, decimate_mem]
      · simp only [he', hl']
        simp [hs, writes_behind_reads, reads_untouched]

theorem rtlsdr_callback_within_limit (g : Globals) (buf : Nat → Nat) (len : Nat)
    (hexit : g.do_exit = false) (hle : len ≤ g.bytes_to_read) :
    (rtlsdr_callback g buf len).g.do_exit = false ∧
    (rtlsdr_callback g buf len).g.bytes_to_read = g.bytes_to_read := by
  unfold rtlsdr_callback
  have hl : (decide (g.bytes_to_read > 0) && decide (g.bytes_to_read < len)) = false := by
    have : ¬ g.bytes_to_read < len := by omega
    simp [this]
  by_cases hs : len / 6 ≤ jack_ringbuffer_write_space g.rtldata
  · simp [hexit, hl, hs]
  · simp [hexit, hl, hs]

/-- C8 (what the code does): `rtlsdr_callback` never decreases `bytes_to_read`, so the
limit is compared with each chunk alone. Whenever no single chunk is longer than the
limit, `do_exit` is still clear after the whole sequence of chunks, whatever the number
of bytes delivered in total. -/
theorem deliver_leaves_do_exit_clear (chunks : List ((Nat → Nat) × Nat)) : ∀ (g : Globals),
    g.do_exit = false → (∀ c ∈ chunks, c.2 ≤ g.bytes_to_read) →
    (deliver g chunks).do_exit = false := by
  induction chunks with
  | nil => intro g hexit _; exact hexit
  | cons c rest ih =>
    intro g hexit hle
    obtain ⟨buf, len⟩ := c
    have h := rtlsdr_callback_within_limit g buf len hexit (hle (buf, len) (List.mem_cons_self _ _))
    simp only [deliver]
    apply ih _ h.1
    intro c hc
    rw [h.2]
    exact hle c (List.mem_cons_of_mem _ hc)

/-- C8, witness (the failing input): limit 2000000 (`-n 1000000`) and eight chunks of the
default size 262144. 2097152 bytes have been delivered, the flag is still clear. -/
theorem deliver_leaves_do_exit_clear_witness :
    0 < limited.bytes_to_read ∧
    limited.bytes_to_read ≤ (eight_default_chunks.map Prod.snd).sum ∧
    (deliver limited eight_default_chunks).do_exit = false :=
  ⟨by decide, by decide,
   deliver_leaves_do_exit_clear eight_default_chunks limited rfl (by
     intro c hc
     have e : c = ((fun _ => 0), DEFAULT_BUF_LENGTH) := (List.mem_replicate.mp hc).2
     rw [e]
     decide)⟩

/-! ## The render consumer: `jack_process` -/

theorem want_of_range (nframes : Nat) (hn : nframes < 2 ^ 27) :
    toInt32 (toUInt32 ((nframes : Int) * 2)) = 2 * (nframes : Int) ∧
    toInt32 (8 * (2 * (nframes : Int))) = 16 * (nframes : Int) := by
  have h0 : (0 : Int) ≤ nframes := Int.ofNat_nonneg _
  have h1 : (nframes : Int) < 2 ^ 27 := by exact_mod_cast hn
  constructor
  · rw [toUInt32_of_range _ (by omega) (by omega), toInt32_of_range _ (by omega) (by omega)]
    omega
  · rw [toInt32_of_range _ (by omega) (by omega)]
    omega

theorem available_of_range (rb : RingBuffer) (hcap : rb.data.length ≤ RB_SIZE) :
    toInt32 (jack_ringbuffer_read_space rb : Nat) = (rb.data.length : Int) := by
  unfold jack_ringbuffer_read_space
  have h1 : (rb.data.length : Int) ≤ 524288 := by
    have : rb.data.length ≤ 524288 := hcap
    exact_mod_cast this
  exact toInt32_of_range _ (Int.ofNat_nonneg _) (by omega)

theorem zero_frames_eq (n : Nat) : ∀ (a b : List Nat),
    zero_frames n (a, b) = (a ++ List.replicate n 0, b ++ List.replicate n 0) := by
  induction n with
  | zero => intro a b; simp [zero_frames]
  | succ m ih =>
    intro a b
    simp [zero_frames, ih, List.replicate_succ]

theorem jack_process_unfold (g : Globals) (scratch : Nat → Nat) (nframes : Nat)
    (hexit : g.do_exit = false) :
    jack_process g scratch nframes =
      (let want : Int := toInt32 (toUInt32 ((nframes : Int) * 2))
       let available : Int := toInt32 (jack_ringbuffer_read_space g.rtldata : Nat)
       let gate := fill_gate g.filling want available
       let get := gate.1
       let drained := jack_ringbuffer_read g.rtldata scratch (get % 2 ^ 64).toNat
       let input := drained.2.1
       let count := (toUInt32 get).toNat
       let out := copy_frames input count 0 ([], [])
       let out := zero_frames (nframes - count) out
       { ret := 0, g := { g with filling := gate.2, rtldata := drained.1 }, scratch := input,
         get := some get, outi := out.1, outq := out.2 }) := by
  unfold jack_process
  rw [hexit]
  rfl

theorem jack_process_state (g : Globals) (scratch : Nat → Nat) (nframes : Nat)
    (hexit : g.do_exit = false) :
    (jack_process g scratch nframes).g.filling =
      (fill_gate g.filling (toInt32 (toUInt32 ((nframes : Int) * 2)))
        (toInt32 (jack_ringbuffer_read_space g.rtldata : Nat))).2 := by
  rw [jack_process_unfold g scratch nframes hexit]

theorem fill_gate_filling (want available : Int) :
    fill_gate true want available
      = (0, if available ≥ toInt32 (8 * want) then false else true) := by
  simp [fill_gate]

theorem jack_process_filling (g : Globals) (scratch : Nat → Nat) (nframes : Nat)
    (hexit : g.do_exit = false) (hfill : g.filling = true) :
    (jack_process g scratch nframes).get = some 0 ∧
    (jack_process g scratch nframes).g.rtldata = g.rtldata ∧
    (jack_process g scratch nframes).outi = List.replicate nframes 0 ∧
    (jack_process g scratch nframes).outq = List.replicate nframes 0 := by
  rw [jack_process_unfold g scratch nframes hexit]
  simp only [hfill, fill_gate_filling]
  have e1 : ((0 : Int) % 2 ^ 64).toNat = 0 := by decide
  have e2 : (toUInt32 0).toNat = 0 := by decide
  rw [e1, e2]
  simp [jack_ringbuffer_read, copy_frames, zero_frames_eq]

theorem jack_process_filling_gate (g : Globals) (scratch : Nat → Nat) (nframes : Nat)
    (hexit : g.do_exit = false) (hfill : g.filling = true)
    (hn : nframes < 2 ^ 27) (hcap : g.rtldata.data.length ≤ RB_SIZE) :
    (jack_process g scratch nframes).g.filling = false ↔
      8 * (2 * nframes) ≤ jack_ringbuffer_read_space g.rtldata := by
  rw [jack_process_state g scratch nframes hexit, hfill, fill_gate_filling,
    (want_of_range nframes hn).1, (want_of_range nframes hn).2,
    available_of_range g.rtldata hcap]
  unfold jack_ringbuffer_read_space
  by_cases h : 8 * (2 * nframes) ≤ g.rtldata.data.length
  · have h' : (g.rtldata.data.length : Int) ≥ 16 * (nframes : Int) := by omega
    simp [h, h']
  · have h' : ¬ ((g.rtldata.data.length : Int) ≥ 16 * (nframes : Int)) := by omega
    simp [h, h']

theorem jack_process_streaming_gate (g : Globals) (scratch : Nat → Nat) (nframes : Nat)
    (hexit : g.do_exit = false) (hfill : g.filling = false)
    (hcap : g.rtldata.data.length ≤ RB_SIZE) :
    (jack_process g scratch nframes).g.filling = true ↔
      jack_ringbuffer_read_space g.rtldata = 0 := by
  rw [jack_process_state g scratch nframes hexit, hfill, available_of_range g.rtldata hcap]
  unfold jack_ringbuffer_read_space fill_gate
  by_cases h : g.rtldata.data.length = 0
  · simp [h]
  · have h' : ¬ ((g.rtldata.data.length : Int) = 0) := by omega
    simp [h, h']

theorem copy_frames_length (scratch : Nat → Nat) (n : Nat) : ∀ (input : Nat) (a b : List Nat),
    (copy_frames scratch n input (a, b)).1.length = a.length + n ∧
    (copy_frames scratch n input (a, b)).2.length = b.length + n := by
  induction n with
  | zero => intro input a b; simp [copy_frames]
  | succ m ih =>
    intro input a b
    simp only [copy_frames]
    have h := ih (input + 2) (a ++ [scratch input]) (b ++ [scratch (input + 1)])
    simp only [List.length_append, List.length_singleton] at h
    omega

theorem jack_process_frames_stored (g : Globals) (scratch : Nat → Nat) (nframes m : Nat)
    (hexit : g.do_exit = false) (hm : m < 2 ^ 31)
    (hget : (fill_gate g.filling (toInt32 (toUInt32 ((nframes : Int) * 2)))
        (toInt32 (jack_ringbuffer_read_space g.rtldata : Nat))).1 = (m : Int)) :
    (jack_process g scratch nframes).outi.length = m + (nframes - m) ∧
    (jack_process g scratch nframes).outq.length = m + (nframes - m) := by
  rw [jack_process_unfold g scratch nframes hexit]
  simp only [hget]
  have e : (toUInt32 (m : Int)).toNat = m := by
    rw [toUInt32_of_range _ (Int.ofNat_nonneg _) (by omega)]
    exact Int.toNat_ofNat m
  rw [e]
  generalize (jack_ringbuffer_read g.rtldata scratch ((m : Int) % 2 ^ 64).toNat).2.1 = input
  have h := copy_frames_length input m 0 [] []
  generalize copy_frames input m 0 ([], []) = out at h
  obtain ⟨a, b⟩ := out
  rw [zero_frames_eq]
  simp only [List.length_append, List.length_replicate, List.length_nil] at h ⊢
  omega

theorem jack_process_streaming_lengths (g : Globals) (scratch : Nat → Nat) (nframes : Nat)
    (hexit : g.do_exit = false) (hfill : g.filling = false)
    (hn0 : 0 < nframes) (hn : nframes < 2 ^ 27)
    (hav : nframes < g.rtldata.data.length) (hcap : g.rtldata.data.length ≤ RB_SIZE) :
    (jack_process g scratch nframes).outi.length = min (2 * nframes) g.rtldata.data.length ∧
    (jack_process g scratch nframes).outq.length = min (2 * nframes) g.rtldata.data.length ∧
    nframes < min (2 * nframes) g.rtldata.data.length := by
  have hcap' : g.rtldata.data.length ≤ 524288 := hcap
  have hget : (fill_gate g.filling (toInt32 (toUInt32 ((nframes : Int) * 2)))
      (toInt32 (jack_ringbuffer_read_space g.rtldata : Nat))).1
        = ((min (2 * nframes) g.rtldata.data.length : Nat) : Int) := by
    rw [hfill, (want_of_range nframes hn).1, available_of_range g.rtldata hcap]
    unfold fill_gate
    have h0 : ¬ ((g.rtldata.data.length : Int) = 0) := by omega
    simp only [Bool.false_eq_true, if_false, h0]
    by_cases h : 2 * (nframes : Int) > (g.rtldata.data.length : Int)
    · rw [if_pos h]
      have : min (2 * nframes) g.rtldata.data.length = g.rtldata.data.length := by omega
      rw [this]
    · rw [if_neg h]
      have : min (2 * nframes) g.rtldata.data.length = 2 * nframes := by omega
      rw [this]
      push_cast
      rfl
  have h := jack_process_frames_stored g scratch nframes _ hexit (by omega) hget
  refine ⟨?_, ?_, by omega⟩
  · rw [h.1]
    omega
  · rw [h.2]
    omega

theorem just_opened_length : just_opened.rtldata.data.length = 2048 :=
  List.length_replicate _ _

theorem prefilled_length (n : Nat) : (prefilled n).rtldata.data.length = n :=
  List.length_replicate _ _

theorem prefilled_read_space (n : Nat) :
    jack_ringbuffer_read_space (prefilled n).rtldata = n :=
  List.length_replicate _ _

theorem prefilled_2048_cap : (prefilled 2048).rtldata.data.length ≤ RB_SIZE := by
  rw [prefilled_length]
  decide

theorem prefilled_2047_cap : (prefilled 2047).rtldata.data.length ≤ RB_SIZE := by
  rw [prefilled_length]
  decide

theorem prefilled_2048_open :
    8 * (2 * 128) ≤ jack_ringbuffer_read_space (prefilled 2048).rtldata :=
  (prefilled_read_space 2048).symm ▸ (by decide : 8 * (2 * 128) ≤ 2048)

theorem prefilled_2047_closed :
    ¬ (8 * (2 * 128) ≤ jack_ringbuffer_read_space (prefilled 2047).rtldata) := by
  rw [prefilled_read_space]
  decide

/-- C3 (the overrun): in `Streaming`, with the flag clear and more unread bytes than
`nframes`, `jack_process` stores `min(2*nframes, available)` frames on each channel, more
than the `nframes` frames requested: its copy loop runs `get` times, not `get/2` times. -/
theorem jack_process_streaming_overrun (g : Globals) (scratch : Nat → Nat) (nframes : Nat)
    (hexit : g.do_exit = false) (hfill : g.filling = false)
    (hn0 : 0 < nframes) (hn : nframes < 2 ^ 27)
    (hav : nframes < g.rtldata.data.length) (hcap : g.rtldata.data.length ≤ RB_SIZE) :
    (jack_process g scratch nframes).outi.length = min (2 * nframes) g.rtldata.data.length ∧
    (jack_process g scratch nframes).outq.length = min (2 * nframes) g.rtldata.data.length ∧
    nframes < min (2 * nframes) g.rtldata.data.length :=
  jack_process_streaming_lengths g scratch nframes hexit hfill hn0 hn hav hcap

/-- C3, witness (the failing input): `Streaming` with 2048 unread bytes and `nframes = 128`;
256 frames are stored on each channel. -/
theorem jack_process_streaming_overrun_witness :
    (jack_process just_opened (fun _ => 0) 128).outi.length = 256 ∧
    (jack_process just_opened (fun _ => 0) 128).outq.length = 256 ∧
    128 < 256 := by
  have h := jack_process_streaming_overrun just_opened (fun _ => 0) 128 rfl rfl
    (by decide) (by decide) (just_opened_length.symm ▸ (by decide : 128 < 2048))
    (just_opened_length.symm ▸ (by decide : 2048 ≤ RB_SIZE))
  rw [just_opened_length] at h
  exact h

/-- Small runs of `jack_process`. In `Streaming` with the 2 unread bytes 5, 7 and
`nframes = 1` it stores 2 frames on each channel. With `nframes = 4`, a call that drains
the 2 bytes 5, 7 after a call that drained 1, 2, 3, 4 outputs the stale bytes 3, 4 of
the scratch buffer as frame 1. -/
theorem jack_process_small_runs :
    (jack_process (streaming [5, 7]) (fun _ => 0) 1).get = some 2 ∧
    (jack_process (streaming [5, 7]) (fun _ => 0) 1).outi = [5, 0] ∧
    (jack_process (streaming [5, 7]) (fun _ => 0) 1).outq = [7, 0] ∧
    first_call.get = some 4 ∧
    first_call.outi = [1, 3, 0, 0] ∧ first_call.outq = [2, 4, 0, 0] ∧
    second_call.get = some 2 ∧
    second_call.outi = [5, 3, 0, 0] ∧ second_call.outq = [7, 4, 0, 0] := by
  decide

/-- C4: the fill-level gate of `jack_process` is a two-state machine that starts in
`Filling` (`filling = 1`). For every call that reaches the gate (`do_exit` clear) with a
frame count below `2^27` and a ring buffer within its capacity: entered in `Filling`, the
state becomes `Streaming` if and only if `available >= 8*want` with `want = 2*nframes`;
entered in `Streaming`, it becomes `Filling` if and only if `available == 0`. -/
theorem jack_process_fill_level_gate (g : Globals) (scratch : Nat → Nat) (nframes : Nat)
    (hexit : g.do_exit = false) (hn : nframes < 2 ^ 27)
    (hcap : g.rtldata.data.length ≤ RB_SIZE) :
    init_globals.filling = true ∧
    (g.filling = true →
      ((jack_process g scratch nframes).g.filling = false ↔
        8 * (2 * nframes) ≤ jack_ringbuffer_read_space g.rtldata)) ∧
    (g.filling = false →
      ((jack_process g scratch nframes).g.filling = true ↔
        jack_ringbuffer_read_space g.rtldata = 0)) :=
  ⟨rfl,
   fun hfill => jack_process_filling_gate g scratch nframes hexit hfill hn hcap,
   fun hfill => jack_process_streaming_gate g scratch nframes hexit hfill hcap⟩

/-- C4, witness: with `want = 256` (`nframes = 128`) the gate opens at occupancy 2048 and
stays closed at 2047. -/
theorem jack_process_fill_level_gate_witness :
    (jack_process (prefilled 2048) (fun _ => 0) 128).g.filling = false ∧
    (jack_process (prefilled 2047) (fun _ => 0) 128).g.filling = true :=
  ⟨((jack_process_fill_level_gate (prefilled 2048) (fun _ => 0) 128 rfl (by decide)
      prefilled_2048_cap).2.1 rfl).mpr prefilled_2048_open,
   Bool.eq_true_of_not_eq_false (fun h =>
     prefilled_2047_closed
       (((jack_process_fill_level_gate (prefilled 2047) (fun _ => 0) 128 rfl (by decide)
          prefilled_2047_cap).2.1 rfl).mp h))⟩

/-- C6 (amended): on every call that `jack_process` enters in `Filling` and on which
`available >= 8*want` holds, the state becomes `Streaming`, but in that same call the
number of bytes drained is `get = 0`: the ring buffer is left as it was and all `nframes`
frames of both channels are zero. -/
theorem jack_process_gate_opening_call (g : Globals) (scratch : Nat → Nat) (nframes : Nat)
    (hexit : g.do_exit = false) (hfill : g.filling = true) (hn : nframes < 2 ^ 27)
    (hcap : g.rtldata.data.length ≤ RB_SIZE)
    (hcond : 8 * (2 * nframes) ≤ jack_ringbuffer_read_space g.rtldata) :
    (jack_process g scratch nframes).g.filling = false ∧
    (jack_process g scratch nframes).get = some 0 ∧
    (jack_process g scratch nframes).g.rtldata = g.rtldata ∧
    (jack_process g scratch nframes).outi = List.replicate nframes 0 ∧
    (jack_process g scratch nframes).outq = List.replicate nframes 0 :=
  ⟨(jack_process_filling_gate g scratch nframes hexit hfill hn hcap).mpr hcond,
   jack_process_filling g scratch nframes hexit hfill⟩

/-- C6, witness: `Filling`, 2048 unread bytes, `nframes = 128`. -/
theorem jack_process_gate_opening_call_witness :
    (jack_process (prefilled 2048) (fun _ => 0) 128).g.filling = false ∧
    (jack_process (prefilled 2048) (fun _ => 0) 128).get = some 0 ∧
    (jack_process (prefilled 2048) (fun _ => 0) 128).g.rtldata = (prefilled 2048).rtldata ∧
    (jack_process (prefilled 2048) (fun _ => 0) 128).outi = List.replicate 128 0 ∧
    (jack_process (prefilled 2048) (fun _ => 0) 128).outq = List.replicate 128 0 :=
  jack_process_gate_opening_call (prefilled 2048) (fun _ => 0) 128 rfl rfl (by decide)
    prefilled_2048_cap prefilled_2048_open

/-- C6, counterexample: entered in `Filling` with 2048 unread bytes and `want = 256`, the
transition condition holds, and the call drains `get = 0` bytes, not
`min(want, available) = 256`. -/
theorem jack_process_gate_opening_drains_nothing :
    (prefilled 2048).do_exit = false ∧ (prefilled 2048).filling = true ∧
    8 * (2 * 128) ≤ jack_ringbuffer_read_space (prefilled 2048).rtldata ∧
    (jack_process (prefilled 2048) (fun _ => 0) 128).get = some 0 ∧
    ¬ ((jack_process (prefilled 2048) (fun _ => 0) 128).get
        = some ((min (2 * 128) (jack_ringbuffer_read_space (prefilled 2048).rtldata) : Nat)
            : Int)) := by
  have hget := (jack_process_filling (prefilled 2048) (fun _ => 0) 128 rfl rfl).1
  refine ⟨rfl, rfl, prefilled_2048_open, hget, ?_⟩
  intro h
  rw [hget, prefilled_read_space] at h
  exact absurd h (by decide)

/-! ## `main` -/

/-- C9: for every requested chunk size `b`, the chunk size `main` passes on to the capture
thread lies in `[MINIMAL_BUF_LENGTH, MAXIMAL_BUF_LENGTH] = [512, 4194304]`; it is `b` when
`b` is inside that range and the default `262144 = 16*16384` when it is outside. -/
theorem main_out_block_size_in_range (b : Nat) :
    MINIMAL_BUF_LENGTH = 512 ∧ MAXIMAL_BUF_LENGTH = 4194304 ∧
    DEFAULT_BUF_LENGTH = 262144 ∧
    MINIMAL_BUF_LENGTH ≤ main_out_block_size (some b) ∧
    main_out_block_size (some b) ≤ MAXIMAL_BUF_LENGTH ∧
    main_out_block_size (some b)
      = (if MINIMAL_BUF_LENGTH ≤ b ∧ b ≤ MAXIMAL_BUF_LENGTH then b else DEFAULT_BUF_LENGTH) := by
  refine ⟨rfl, rfl, rfl, ?_⟩
  simp only [main_out_block_size, check_out_block_size, Option.getD_some,
    MINIMAL_BUF_LENGTH, MAXIMAL_BUF_LENGTH, DEFAULT_BUF_LENGTH]
  by_cases h : b < 512 ∨ b > 256 * 16384
  · have h' : ¬ (512 ≤ b ∧ b ≤ 256 * 16384) := by omega
    rw [if_pos h, if_neg h']
    omega
  · have h' : 512 ≤ b ∧ b ≤ 256 * 16384 := by omega
    rw [if_neg h, if_pos h']
    omega

end RtlJack
